import Mathlib

/-!
Verification of the completion-item normalization and ranking core
(item conversion, MRU recency model, input/resume policy).

JavaScript strings are modelled as Lean `String`s viewed as their list of
characters (`String.data`); `charCodeAt` comparisons become `Char` equality.
External utilities whose source is not part of the verified subset
(byte-indexed slicing, the snippet parser, ASCII transliteration, the LRU
cache) are modelled from the spec, as marked on each definition.
-/

namespace CocComplete

/-- Character-level JS string length (`s.length`). -/
def Js.len (s : String) : Nat := s.data.length

/-- JS `s.slice(a, b)` for non-negative character indices. -/
def Js.sliceCE (s : String) (a b : Nat) : String := ⟨(s.data.take b).drop a⟩

/-- JS `s.slice(0, n)` / character-indexed take. -/
def Js.takeCh (s : String) (n : Nat) : String := ⟨s.data.take n⟩

/-- JS `s.startsWith(t)`. -/
def Js.startsWith (s t : String) : Bool := List.isPrefixOf t.data s.data

/-- JS `s.endsWith(t)`: the last `t.length` characters of `s` equal `t`. -/
def Js.endsWith (s t : String) : Bool :=
  s.data.drop (s.data.length - t.data.length) == t.data

/-- JS `s.includes(c)` for a single-character needle. -/
def Js.containsCh (s : String) (c : Char) : Bool := s.data.contains c

/-- JS `s.trim()` (whitespace = space, tab, CR, LF in this model). -/
def Js.trim (s : String) : String :=
  ⟨((s.data.dropWhile Char.isWhitespace).reverse.dropWhile Char.isWhitespace).reverse⟩

/-- JS falsiness of an optional string: `undefined` and `""` are falsy. -/
def strFalsy (o : Option String) : Bool :=
  match o with
  | none => true
  | some s => s.data.isEmpty

/-- Modelled from the spec: `byteSlice` of `util/string` is byte-indexed
slicing of the UTF-8 encoding.  `byteDropList n` drops the characters making
up the first `n` bytes. -/
def byteDropList : Nat → List Char → List Char
  | _, [] => []
  | n, c :: cs => if n = 0 then c :: cs else byteDropList (n - c.utf8Size) cs

/-- Modelled from the spec: the characters entirely inside the first `n`
bytes of the UTF-8 encoding. -/
def byteTakeList : Nat → List Char → List Char
  | _, [] => []
  | n, c :: cs => if c.utf8Size ≤ n then c :: byteTakeList (n - c.utf8Size) cs else []

/-- Modelled from the spec: `byteSlice(s, a)`, the suffix of `s` from byte
index `a` of its UTF-8 encoding. -/
def byteSlice (s : String) (a : Nat) : String := ⟨byteDropList a s.data⟩

/-- Modelled from the spec: `byteSlice(s, 0, n)`, the prefix of `s` covered
by the first `n` bytes of its UTF-8 encoding. -/
def byteTakeStr (s : String) (n : Nat) : String := ⟨byteTakeList n s.data⟩

/-- A protocol position (line, character). -/
structure Position where
  line : Nat
  character : Nat
deriving DecidableEq, Repr

/-- A protocol range; `endPos` models the protocol field `end`. -/
structure Range where
  start : Position
  endPos : Position
deriving DecidableEq, Repr

/-- A completion item's structural edit: either a plain `TextEdit`
(range + newText) or an `InsertReplaceEdit` (insert + replace + newText). -/
inductive TextEditU where
  | simple (range : Range) (newText : String)
  | insertReplace (insert : Range) (replace : Range) (newText : String)
deriving DecidableEq, Repr

/-- The replacement text carried by either edit shape. -/
def TextEditU.newText : TextEditU → String
  | .simple _ t => t
  | .insertReplace _ _ t => t

/-- A batch default edit range: plain range or insert/replace pair. -/
inductive EditRangeU where
  | range (r : Range)
  | insertReplace (insert : Range) (replace : Range)
deriving DecidableEq, Repr

/-- Batch `ItemDefaults` (only the fields the converter reads). -/
structure ItemDefaults where
  editRange : Option EditRangeU := none
  insertTextFormat : Option Nat := none
deriving DecidableEq, Repr

/-- The fields of an item's opaque `data` payload that the converter reads. -/
structure ItemData where
  word : Option String := none
  dup : Option Int := none
  optional : Bool := false
deriving DecidableEq, Repr

/-- `CompletionItemLabelDetails`. -/
structure CompletionItemLabelDetails where
  detail : Option String := none
  description : Option String := none
deriving DecidableEq, Repr

/-- A protocol-native `CompletionItem` (the fields the converter reads;
`additionalTextEdits` keeps only its length, `score` is the extension field
`item['score']`). -/
structure CompletionItem where
  label : String
  kind : Option Nat := none
  detail : Option String := none
  sortText : Option String := none
  filterText : Option String := none
  insertText : Option String := none
  insertTextFormat : Option Nat := none
  textEdit : Option TextEditU := none
  additionalTextEdits : List Unit := []
  preselect : Option Bool := none
  deprecated : Option Bool := none
  tags : List Nat := []
  data : Option ItemData := none
  labelDetails : Option CompletionItemLabelDetails := none
  score : Option Nat := none
deriving DecidableEq, Repr

/-- A legacy-simple (vim-style) complete item. -/
structure ExtendedCompleteItem where
  word : Option String := none
  abbr : Option String := none
  filterText : Option String := none
  menu : Option String := none
  kind : Option String := none
  info : Option String := none
  isSnippet : Option Bool := none
  dup : Option Nat := none
  insertText : Option String := none
  preselect : Option Bool := none
  sortText : Option String := none
  documentation : Option String := none
  deprecated : Option Bool := none
  detail : Option String := none
  labelDetails : Option CompletionItemLabelDetails := none
  user_data : Option String := none
deriving DecidableEq, Repr

/-- A canonical item kind: numeric protocol kind or textual vim kind. -/
inductive KindU where
  | num (n : Nat)
  | str (s : String)
deriving DecidableEq, Repr

/-- The canonical `DurationCompleteItem` produced by conversion. -/
structure DurationCompleteItem where
  word : String
  abbr : String
  filterText : String
  delta : Nat
  character : Nat
  source : String
  priority : Int
  index : Nat
  dup : Bool
  kind : Option KindU := none
  menu : Option String := none
  info : Option String := none
  isSnippet : Bool := false
  insertText : Option String := none
  preselect : Option Bool := none
  sortText : Option String := none
  documentation : Option String := none
  deprecated : Option Bool := none
  detail : Option String := none
  labelDetails : Option CompletionItemLabelDetails := none
  user_data : Option String := none
deriving DecidableEq, Repr

/-- `INVALID_WORD_CHARS`: line feed and carriage return. -/
def INVALID_WORD_CHARS : List Char := ['\n', '\r']

/-- `MAX_CODE_POINT`. -/
def MAX_CODE_POINT : Nat := 1114111

/-- `Number.MAX_SAFE_INTEGER`. -/
def maxSafeInteger : Nat := 9007199254740991

/-- `CompletionItemKind.Method`. -/
def kindMethod : Nat := 2

/-- `CompletionItemKind.Function`. -/
def kindFunction : Nat := 3

/-- `InsertTextFormat.Snippet`. -/
def snippetFormat : Nat := 2

/-- The scan of `toValidWord`: keep characters until the first excluded one. -/
def toValidWordList (excludes : List Char) : List Char → List Char
  | [] => []
  | c :: rest => if excludes.contains c then [] else c :: toValidWordList excludes rest

/-- `toValidWord(snippet, excludes)`: the prefix of `snippet` before the
first excluded character. -/
def toValidWord (snippet : String) (excludes : List Char) : String :=
  ⟨toValidWordList excludes snippet.data⟩

/-- JS line terminators, the characters `.` does not match in a regex. -/
def isLineTerm (c : Char) : Bool :=
  c = '\n' || c = '\r' || c.toNat = 0x2028 || c.toNat = 0x2029

/-- The scan of `text.replace(/\(.+/, '')`: at the first `(` followed by at
least one non-line-terminator, delete the `(` and the maximal run of
non-line-terminators after it; otherwise keep scanning. -/
def parenStripList : List Char → List Char
  | [] => []
  | c :: rest =>
    if c = '(' then
      match rest with
      | [] => [c]
      | d :: _ =>
        if isLineTerm d then c :: parenStripList rest
        else rest.dropWhile (fun x => !isLineTerm x)
    else c :: parenStripList rest

/-- `text.replace(/\(.+/, '')` as used by `snippetToWord`. -/
def replaceParenSuffix (text : String) : String := ⟨parenStripList text.data⟩

/-- `snippetToWord(text, kind)`, parameterized by the external snippet
parser's `text` function (`parse`), whose source is outside the verified
subset; the spec treats its output as an opaque plain-text result. -/
def snippetToWord (parse : String → String) (text : String) (kind : Option Nat) : String :=
  let text := if kind == some kindFunction || kind == some kindMethod
    then replaceParenSuffix text else text
  if !(Js.containsCh text '$') then text
  else toValidWord (parse text) INVALID_WORD_CHARS

/-- `isSnippetItem(item, itemDefaults)`. -/
def isSnippetItem (item : CompletionItem) (itemDefaults : ItemDefaults) : Bool :=
  (match item.insertTextFormat with
   | some f => some f
   | none => itemDefaults.insertTextFormat) == some snippetFormat

/-- `hasAction(item, itemDefaults)`: snippet or has additionalTextEdits. -/
def hasAction (item : CompletionItem) (itemDefaults : ItemDefaults) : Bool :=
  isSnippetItem item itemDefaults || !item.additionalTextEdits.isEmpty

/-- The `data.word` read of `getWord`: a string `word` field of the opaque
`data` payload, when present. -/
def dataWord (item : CompletionItem) : Option String :=
  match item.data with
  | some d => d.word
  | none => none

/-- `getWord(item, itemDefaults)`, parameterized by the external snippet
parser's `text` function. -/
def getWord (parse : String → String) (item : CompletionItem)
    (itemDefaults : ItemDefaults) : String :=
  match dataWord item with
  | some w => w
  | none =>
    let textToInsert : Option String :=
      match item.textEdit with
      | some te => some te.newText
      | none => item.insertText
    match textToInsert with
    | none => item.label
    | some t =>
      if isSnippetItem item itemDefaults then snippetToWord parse t item.kind
      else toValidWord t INVALID_WORD_CHARS

/-- The clamp `range.start.character = character` applied when the range
starts after the given character bound. -/
def clampRange (c : Nat) (r : Range) : Range :=
  if c < r.start.character then { r with start := { r.start with character := c } } else r

/-- The range selected by `getReplaceRange` before clamping: the item's own
edit (replace variant preferred), else the defaults' edit range. -/
def chooseRange (item : CompletionItem) (itemDefaults : ItemDefaults) : Option Range :=
  match item.textEdit with
  | some (.simple r _) => some r
  | some (.insertReplace _ r _) => some r
  | none =>
    match itemDefaults.editRange with
    | some (.range r) => some r
    | some (.insertReplace _ r) => some r
    | none => none

/-- `getReplaceRange(item, itemDefaults, character?)`. -/
def getReplaceRange (item : CompletionItem) (itemDefaults : ItemDefaults)
    (character : Option Nat) : Option Range :=
  match chooseRange item itemDefaults, character with
  | some r, some c => some (clampRange c r)
  | some r, none => some r
  | none, _ => none

/-- The item's `textEdit` after a `getReplaceRange(item, _, some c)` call:
the clamp mutates the chosen range object in place, so an own edit whose
replace range started after `c` is changed. -/
def textEditAfterClamp (item : CompletionItem) (c : Nat) : Option TextEditU :=
  match item.textEdit with
  | some (.simple r t) => some (.simple (clampRange c r) t)
  | some (.insertReplace i r t) => some (.insertReplace i (clampRange c r) t)
  | none => none

/-- `ConvertOption`: fixed per-provider-batch context. -/
structure ConvertOption where
  source : String
  priority : Int
  range : Range
  itemDefaults : Option ItemDefaults := none
  asciiMatch : Bool := false
deriving Repr

/-- `OptionForWord`: line and cursor position snapshot. -/
structure OptionForWord where
  line : String
  position : Position
deriving DecidableEq, Repr

/-- The fixed construction context of one `Converter` instance.  The two
function fields model external utilities outside the verified subset:
`unidec` is `unidecode` (ASCII transliteration) and `parseSnippetText` is
the snippet parser's `text` method, both treated by the spec as opaque
string-to-string transformations. -/
structure ConvertContext where
  inputStart : Nat
  option : ConvertOption
  opt : OptionForWord
  unidec : String → String
  parseSnippetText : String → String

/-- The converter's cached cursor character (`this.character`). -/
def ConvertContext.character (ctx : ConvertContext) : Nat := ctx.opt.position.character

/-- `this.inputLen = position.character - inputStart` (JS subtraction, so an
integer). -/
def ConvertContext.inputLen (ctx : ConvertContext) : Int :=
  (ctx.character : Int) - (ctx.inputStart : Int)

/-- `Converter.getPrevious`: text of the line between `character` and the
input start (the memoization cache only avoids recomputation). -/
def ConvertContext.getPrevious (ctx : ConvertContext) (character : Nat) : String :=
  Js.sliceCE ctx.opt.line character ctx.inputStart

/-- `Converter.getAfter`: text of the line between the cursor and
`character`. -/
def ConvertContext.getAfter (ctx : ConvertContext) (character : Nat) : String :=
  Js.sliceCE ctx.opt.line ctx.character character

/-- `word.slice(0, -n)` for a non-negative `n`: JS maps `-0` to `0`, so a
zero `n` empties the string. -/
def jsSliceNegEnd (word : String) (n : Nat) : String :=
  if n = 0 then "" else Js.takeCh word (Js.len word - n)

/-- `Converter.fixFollow(word, isSnippet, endCharacter)`. -/
def ConvertContext.fixFollow (ctx : ConvertContext) (word : String) (isSnippet : Bool)
    (endCharacter : Nat) : String :=
  if isSnippet || endCharacter ≤ ctx.character then word
  else
    let toReplace := ctx.getAfter endCharacter
    if ((Js.len word : Int) - ctx.inputLen > (Js.len toReplace : Int))
        && Js.endsWith word toReplace
    then jsSliceNegEnd word (Js.len toReplace)
    else word

/-- `Converter.getDelta(filterText, character)`. -/
def ConvertContext.getDelta (ctx : ConvertContext) (filterText : String)
    (character : Nat) : Nat :=
  if character < ctx.inputStart then
    let prev := ctx.getPrevious character
    if Js.startsWith filterText prev then Js.len prev else 0
  else 0

/-- The synthesized sort text `String.fromCodePoint(MAX_CODE_POINT - score)`
(the model's scores are naturals, so `Math.round` is the identity). -/
def scoreSortText (score : Nat) : String := ⟨[Char.ofNat (MAX_CODE_POINT - score)]⟩

/-- `Converter.convertVimCompleteItem`, with the mutable `minCharacter`
passed and returned explicitly. -/
def convertVimCompleteItem (ctx : ConvertContext) (minCharacter : Nat)
    (item : ExtendedCompleteItem) (index : Nat) : DurationCompleteItem × Nat :=
  let option := ctx.option
  let word := item.word.getD ""
  let character := option.range.start.character
  let minCharacter := min minCharacter character
  let filterText0 := item.filterText.getD word
  let filterText := if option.asciiMatch then ctx.unidec filterText0 else filterText0
  let delta := ctx.getDelta filterText character
  ({ word := ctx.fixFollow word (item.isSnippet == some true) option.range.endPos.character
     abbr := item.abbr.getD word
     filterText := filterText
     delta := delta
     character := character
     source := option.source
     priority := option.priority
     index := index
     dup := item.dup == some 1
     menu := item.menu
     kind := item.kind.map KindU.str
     info := item.info
     isSnippet := item.isSnippet == some true
     insertText := item.insertText
     preselect := item.preselect
     sortText := item.sortText
     documentation := item.documentation
     deprecated := item.deprecated
     detail := item.detail
     labelDetails := item.labelDetails
     user_data := item.user_data }, minCharacter)

/-- `emptLabelDetails(labelDetails)`. -/
def emptLabelDetails (labelDetails : Option CompletionItemLabelDetails) : Bool :=
  match labelDetails with
  | none => true
  | some l => strFalsy l.detail && strFalsy l.description

/-- `Converter.convertLspCompleteItem`, with the mutable `minCharacter`
passed and returned explicitly. -/
def convertLspCompleteItem (ctx : ConvertContext) (minCharacter : Nat)
    (item : CompletionItem) (index : Nat) : DurationCompleteItem × Nat :=
  let option := ctx.option
  let label := Js.trim item.label
  let itemDefaults := option.itemDefaults.getD {}
  let word := getWord ctx.parseSnippetText item itemDefaults
  let range := (getReplaceRange item itemDefaults (some ctx.inputStart)).getD option.range
  let character := range.start.character
  let data := item.data.getD {}
  let filterText := item.filterText.getD item.label
  let delta := ctx.getDelta filterText character
  let obj : DurationCompleteItem :=
    { word := ctx.fixFollow word (isSnippetItem item itemDefaults) range.endPos.character
      abbr := label
      character := character
      delta := delta
      kind := item.kind.map KindU.num
      detail := item.detail
      sortText := item.sortText
      filterText := filterText
      preselect := some (item.preselect == some true)
      deprecated := some (item.deprecated == some true || item.tags.contains 1)
      isSnippet := hasAction item itemDefaults
      index := index
      source := option.source
      priority := option.priority
      dup := data.dup != some 0 }
  let minCharacter := min minCharacter character
  let obj := if data.optional && !(Js.endsWith obj.abbr "?")
    then { obj with abbr := obj.abbr ++ "?" } else obj
  let obj := if !(emptLabelDetails item.labelDetails)
    then { obj with labelDetails := item.labelDetails } else obj
  let obj := match item.score with
    | some sc => if strFalsy obj.sortText then { obj with sortText := some (scoreSortText sc) } else obj
    | none => obj
  (obj, minCharacter)

/-- A raw candidate: legacy-simple (vim) or protocol-native (LSP); the
source discriminates with `Is.isCompletionItem`. -/
inductive RawCompleteItem where
  | vim (item : ExtendedCompleteItem)
  | lsp (item : CompletionItem)
deriving DecidableEq, Repr

/-- `Converter.convertToDurationItem(item, index)`. -/
def convertToDurationItem (ctx : ConvertContext) (minCharacter : Nat)
    (raw : RawCompleteItem) (index : Nat) : DurationCompleteItem × Nat :=
  match raw with
  | .lsp item => convertLspCompleteItem ctx minCharacter item index
  | .vim item => convertVimCompleteItem ctx minCharacter item index

/-- A sequence of `convertToDurationItem` calls on one converter instance,
threading `minCharacter` and consecutive indices. -/
def convertAll (ctx : ConvertContext) (minCharacter : Nat) :
    List RawCompleteItem → Nat → List DurationCompleteItem × Nat
  | [], _ => ([], minCharacter)
  | raw :: rest, i =>
    let p := convertToDurationItem ctx minCharacter raw i
    let q := convertAll ctx p.2 rest (i + 1)
    (p.1 :: q.1, q.2)

/-- The fields of `CompleteOption` read by `getResumeInput`. -/
structure PartialOption where
  col : Nat
  line : String
  position : Position
deriving DecidableEq, Repr

/-- `getResumeInput(option, pretext)`: `none` models the `null` return. -/
def getResumeInput (option : PartialOption) (pretext : String) : Option String :=
  let cursor := option.position.character
  let pl := Js.len pretext
  if pl < cursor then none
  else if (List.range pl).any (fun i =>
      if i < cursor then pretext.data[i]? != option.line.data[i]?
      else pretext.data[i]? == some ' ') then none
  else some (byteSlice pretext option.col)

/-- The fields of `InsertChange` read by `shouldStop`. -/
structure InsertChange where
  lnum : Nat
  pre : String
deriving DecidableEq, Repr

/-- The fields of `CompleteOption` read by `shouldStop`. -/
structure StopOption where
  bufnr : Nat
  linenr : Nat
  line : String
  colnr : Nat
deriving DecidableEq, Repr

/-- `shouldStop(bufnr, pretext, info, option)`. -/
def shouldStop (bufnr : Nat) (pretext : String) (info : InsertChange)
    (option : StopOption) : Bool :=
  let pre := info.pre
  if pre.data.length = 0 || pre.data.getLast? == some ' '
      || pre.data.length < pretext.data.length then true
  else if option.bufnr != bufnr then true
  else
    let text := byteTakeStr option.line (option.colnr - 1)
    if option.linenr != info.lnum || !(Js.startsWith pre text) then true
    else false

/-- The fields of a `DurationCompleteItem` read by the MRU model
(`MruItem`). -/
structure MruItem where
  filterText : String
  source : String
  kind : Option KindU := none
deriving DecidableEq, Repr

/-- The stringification of `kind ?? ''` in a template literal. -/
def kindStr (kind : Option KindU) : String :=
  match kind with
  | none => ""
  | some (.num n) => toString n
  | some (.str s) => s

/-- `toItemKey(item)`: the identity key `filterText|source|kind`. -/
def toItemKey (item : MruItem) : String :=
  item.filterText ++ "|" ++ item.source ++ "|" ++ kindStr item.kind

/-- The three `Selection` strategies. -/
inductive Selection where
  | first
  | recentlyUsed
  | recentlyUsedByPrefix
deriving DecidableEq, Repr

/-- `MAX_MRU_ITEMS`. -/
def MAX_MRU_ITEMS : Nat := 100

/-- Modelled from the spec: the bounded `LRUCache` of `util/map`, as an
association list ordered most-recently-written first.  `get`'s recency
refresh changes only eviction order, never stored values, so value lookup
is modelled purely. -/
structure LRUCacheM where
  entries : List (String × Nat) := []
deriving DecidableEq, Repr

/-- Modelled from the spec: `LRUCache.get`, the stored value of a key. -/
def LRUCacheM.get (m : LRUCacheM) (k : String) : Option Nat :=
  (m.entries.find? (fun e => e.1 == k)).map (fun e => e.2)

/-- Modelled from the spec: `LRUCache.set` with capacity `MAX_MRU_ITEMS`:
the key moves to the front with the new value, and insertion beyond
capacity evicts the least recently used entry. -/
def LRUCacheM.set (m : LRUCacheM) (k : String) (v : Nat) : LRUCacheM :=
  ⟨(k, v) :: (m.entries.filter (fun e => e.1 != k)).take (MAX_MRU_ITEMS - 1)⟩

/-- The state of a `MruLoader`: the counter and the two caches. -/
structure MruState where
  max : Nat := 0
  items : LRUCacheM := {}
  itemsNoPrefex : LRUCacheM := {}
deriving DecidableEq, Repr

/-- The `?? -1` of a score lookup: a missing entry scores `-1`. -/
def scoreOf (o : Option Nat) : Int :=
  match o with
  | some v => (v : Int)
  | none => -1

/-- `MruLoader.getScore(input, item, selection)`: empty input reads the
no-prefix cache with the plain key; otherwise the key gains the `input|`
prefix exactly under `RecentlyUsedByPrefix`, and the map is the no-prefix
cache exactly under `RecentlyUsed`. -/
def MruState.getScore (st : MruState) (input : String) (item : MruItem)
    (selection : Selection) : Int :=
  if Js.len input = 0 then scoreOf (st.itemsNoPrefex.get (toItemKey item))
  else
    scoreOf ((if selection = Selection.recentlyUsed then st.itemsNoPrefex else st.items).get
      (if selection = Selection.recentlyUsedByPrefix then input ++ "|" ++ toItemKey item
       else toItemKey item))

/-- `MruLoader.add(prefix, item)` (the first argument models `prefix`). -/
def MruState.add (st : MruState) (pfx : String) (item : MruItem) : MruState :=
  match item.kind with
  | some (.num _) =>
    let key := toItemKey item
    let pfx := if Js.startsWith item.filterText pfx then pfx else ""
    let line := pfx ++ "|" ++ key
    { max := st.max + 1
      items := st.items.set line st.max
      itemsNoPrefex := st.itemsNoPrefex.set key st.max }
  | _ => st

/-- `MruLoader.clear()`. -/
def MruState.clear : MruState := {}

/-- Every value stored in the cache is below `bound`. -/
def LRUWF (m : LRUCacheM) (bound : Nat) : Prop := ∀ e ∈ m.entries, e.2 < bound

/-- The `MruLoader` invariant: every stored sequence number is below the
counter. -/
def MruWF (st : MruState) : Prop :=
  LRUWF st.items st.max ∧ LRUWF st.itemsNoPrefex st.max

/-- `getScore` as the spec words it: key `filterText|source|kind`; empty
input reads the no-prefix cache; otherwise `RecentlyUsedByPrefix` reads
`input|key` in the prefix-aware cache, `RecentlyUsed` the plain key in the
no-prefix cache, `First` the plain key in the prefix-aware cache; missing
entries score `-1`. -/
def getScoreSpec (st : MruState) (input : String) (item : MruItem)
    (selection : Selection) : Int :=
  let key := item.filterText ++ "|" ++ item.source ++ "|" ++ kindStr item.kind
  let score : Option Nat :=
    if input = "" then st.itemsNoPrefex.get key
    else
      match selection with
      | .recentlyUsedByPrefix => st.items.get (input ++ "|" ++ key)
      | .recentlyUsed => st.itemsNoPrefex.get key
      | .first => st.items.get key
  scoreOf score

/-- The scan of `toValidWord` is the longest prefix free of excluded
characters. -/
theorem toValidWordList_eq_takeWhile (excludes : List Char) (l : List Char) :
    toValidWordList excludes l = l.takeWhile (fun c => !excludes.contains c) := by
  induction l with
  | nil => rfl
  | cons c rest ih =>
    by_cases h : c ∈ excludes
    · simp [toValidWordList, List.takeWhile, h]
    · simp [toValidWordList, List.takeWhile, h, ih]

/-- A `min`-fold is bounded by its initial value. -/
theorem foldl_min_le_init (l : List Nat) : ∀ a : Nat, l.foldl min a ≤ a := by
  induction l with
  | nil => intro a; simp
  | cons x xs ih =>
    intro a
    calc xs.foldl min (min a x) ≤ min a x := ih (min a x)
      _ ≤ a := min_le_left a x

/-- A `min`-fold is bounded by every element of the list. -/
theorem foldl_min_le_mem (l : List Nat) : ∀ a x : Nat, x ∈ l → l.foldl min a ≤ x := by
  induction l with
  | nil => intro a x hx; cases hx
  | cons y ys ih =>
    intro a x hx
    rcases List.mem_cons.mp hx with h | h
    · subst h
      calc ys.foldl min (min a x) ≤ min a x := foldl_min_le_init ys (min a x)
        _ ≤ x := min_le_right a x
    · exact ih (min a y) x h

/-- The returned canonical item of a conversion does not depend on the
converter's mutable `minCharacter` state. -/
theorem convert_fst_congr (ctx : ConvertContext) (st st' : Nat) (raw : RawCompleteItem)
    (index : Nat) :
    (convertToDurationItem ctx st raw index).1 = (convertToDurationItem ctx st' raw index).1 := by
  cases raw <;> rfl

/-- The produced LSP item's `character` is the start character of the
selected (clamped) replace range, defaults range when absent. -/
theorem convertLsp_character (ctx : ConvertContext) (st : Nat) (item : CompletionItem)
    (index : Nat) :
    (convertLspCompleteItem ctx st item index).1.character
      = ((getReplaceRange item (ctx.option.itemDefaults.getD {}) (some ctx.inputStart)).getD
          ctx.option.range).start.character := by
  simp only [convertLspCompleteItem]
  split <;> (try split) <;> (try split) <;> (try split) <;> rfl

/-- The produced LSP item's `word` is the derived word run through
`fixFollow`. -/
theorem convertLsp_word (ctx : ConvertContext) (st : Nat) (item : CompletionItem)
    (index : Nat) :
    (convertLspCompleteItem ctx st item index).1.word
      = ctx.fixFollow (getWord ctx.parseSnippetText item (ctx.option.itemDefaults.getD {}))
          (isSnippetItem item (ctx.option.itemDefaults.getD {}))
          (((getReplaceRange item (ctx.option.itemDefaults.getD {}) (some ctx.inputStart)).getD
              ctx.option.range).endPos.character) := by
  simp only [convertLspCompleteItem]
  split <;> (try split) <;> (try split) <;> (try split) <;> rfl

/-- The produced LSP item's `dup` flag is `data.dup !== 0`. -/
theorem convertLsp_dup (ctx : ConvertContext) (st : Nat) (item : CompletionItem)
    (index : Nat) :
    (convertLspCompleteItem ctx st item index).1.dup
      = ((item.data.getD {}).dup != some 0) := by
  simp only [convertLspCompleteItem]
  split <;> (try split) <;> (try split) <;> (try split) <;> rfl

/-- One conversion updates `minCharacter` to the minimum of its previous
value and the produced item's `character`. -/
theorem convert_snd_min (ctx : ConvertContext) (st : Nat) (raw : RawCompleteItem)
    (index : Nat) :
    (convertToDurationItem ctx st raw index).2
      = min st (convertToDurationItem ctx st raw index).1.character := by
  cases raw with
  | vim item => rfl
  | lsp item =>
    show (convertLspCompleteItem ctx st item index).2
      = min st (convertLspCompleteItem ctx st item index).1.character
    rw [convertLsp_character]
    rfl

/-- Setting a key makes it immediately readable with the set value. -/
theorem LRUCacheM.get_set_self (m : LRUCacheM) (k : String) (v : Nat) :
    (m.set k v).get k = some v := by
  simp [LRUCacheM.get, LRUCacheM.set, List.find?]

/-- A value returned by `get` is stored in the entry list. -/
theorem LRUCacheM.get_value_mem (m : LRUCacheM) (k : String) (v : Nat)
    (h : m.get k = some v) : ∃ e ∈ m.entries, e.2 = v := by
  unfold LRUCacheM.get at h
  rcases Option.map_eq_some'.mp h with ⟨e, he, hv⟩
  exact ⟨e, List.mem_of_find?_eq_some he, hv⟩

/-- `set` preserves the value bound when the new value respects it. -/
theorem LRUWF.set (m : LRUCacheM) (b b' : Nat) (k : String) (v : Nat)
    (h : LRUWF m b) (hv : v < b') (hb : b ≤ b') : LRUWF (m.set k v) b' := by
  intro e he
  rcases List.mem_cons.mp he with h1 | h1
  · subst h1; exact hv
  · exact lt_of_lt_of_le (h e (List.mem_of_mem_filter (List.mem_of_mem_take h1))) hb

/-- The cleared MRU state satisfies the counter invariant. -/
theorem mruWF_clear : MruWF MruState.clear := by
  constructor <;> intro e he <;> cases he

/-- `add` preserves the counter invariant. -/
theorem mruWF_add (st : MruState) (pfx : String) (item : MruItem)
    (h : MruWF st) : MruWF (st.add pfx item) := by
  rcases h with ⟨h1, h2⟩
  cases hk : item.kind with
  | none => simpa [MruState.add, hk] using ⟨h1, h2⟩
  | some ku =>
    cases ku with
    | str s => simpa [MruState.add, hk] using ⟨h1, h2⟩
    | num n =>
      refine ⟨?_, ?_⟩
      · simpa [MruState.add, hk] using
          LRUWF.set _ st.max (st.max + 1) _ st.max h1 (Nat.lt_succ_self _) (Nat.le_succ _)
      · simpa [MruState.add, hk] using
          LRUWF.set _ st.max (st.max + 1) _ st.max h2 (Nat.lt_succ_self _) (Nat.le_succ _)

/-- A lookup in a bounded cache scores below the bound. -/
theorem scoreOf_lt (m : LRUCacheM) (k : String) (b : Nat) (h : LRUWF m b) :
    scoreOf (m.get k) < (b : Int) := by
  cases hg : m.get k with
  | none => simp [scoreOf]; omega
  | some v =>
    rcases LRUCacheM.get_value_mem _ _ _ hg with ⟨e, he, hv⟩
    simpa [scoreOf] using hv ▸ h e he

/-- Under the invariant, every score `getScore` can return is below the
counter. -/
theorem getScore_lt_max (st : MruState) (input : String) (item : MruItem)
    (sel : Selection) (h : MruWF st) :
    st.getScore input item sel < (st.max : Int) := by
  rcases h with ⟨h1, h2⟩
  unfold MruState.getScore
  by_cases hi : Js.len input = 0
  · simpa [hi] using scoreOf_lt _ _ _ h2
  · by_cases hs : sel = Selection.recentlyUsed
    · simpa [hi, hs] using scoreOf_lt _ _ _ h2
    · simpa [hi, hs] using scoreOf_lt _ _ _ h1

/-- `getScore` on the cleared state is `-1` for every lookup. -/
theorem getScore_clear (input : String) (item : MruItem) (sel : Selection) :
    MruState.clear.getScore input item sel = -1 := by
  cases sel <;> unfold MruState.getScore <;> split <;> rfl

/-- Claim C4: `getScore` resolves its lookup exactly as described: identity
key `filterText|source|kind`; empty input reads the plain key in the
no-prefix cache regardless of selection; otherwise `RecentlyUsedByPrefix`
reads `input|key` in the prefix-aware cache, `RecentlyUsed` the plain key
in the no-prefix cache, and `First` the plain key in the prefix-aware
cache; a missing entry scores `-1`. -/
theorem C4_getScore_resolution (st : MruState) (input : String) (item : MruItem)
    (selection : Selection) :
    st.getScore input item selection = getScoreSpec st input item selection := by
  have hlen : Js.len input = 0 ↔ input = "" := by
    constructor
    · intro h
      cases input with
      | mk l =>
        have : l = [] := List.length_eq_zero.mp h
        subst this
        rfl
    · intro h
      subst h
      rfl
  by_cases h : input = ""
  · subst h
    simp only [MruState.getScore, getScoreSpec]
    rw [if_pos (hlen.mpr rfl)]
    simp [toItemKey]
  · simp only [MruState.getScore, getScoreSpec]
    rw [if_neg (fun hh => h (hlen.mp hh)), if_neg h]
    cases selection <;> rfl

/-- Claim C3 (amended): for an item whose kind is a numeric protocol kind
and whose filter text starts with the prefix, `add(prefix, item)` followed
immediately by `getScore(prefix, item, RecentlyUsedByPrefix)` returns the
pre-add counter: non-negative and strictly greater than every score
obtainable before the add; and after `clear()` every lookup scores `-1`. -/
theorem C3_mru_add_then_getScore (st : MruState) (pfx : String) (item : MruItem)
    (hwf : MruWF st) (n : Nat) (hkind : item.kind = some (KindU.num n))
    (hpre : Js.startsWith item.filterText pfx = true) :
    ((st.add pfx item).getScore pfx item Selection.recentlyUsedByPrefix = (st.max : Int)
      ∧ 0 ≤ (st.add pfx item).getScore pfx item Selection.recentlyUsedByPrefix
      ∧ ∀ input it sel, st.getScore input it sel
          < (st.add pfx item).getScore pfx item Selection.recentlyUsedByPrefix)
    ∧ ∀ input it sel, MruState.clear.getScore input it sel = -1 := by
  have hadd : st.add pfx item =
      { max := st.max + 1
        items := st.items.set (pfx ++ "|" ++ toItemKey item) st.max
        itemsNoPrefex := st.itemsNoPrefex.set (toItemKey item) st.max } := by
    simp [MruState.add, hkind, hpre]
  have hscore : (st.add pfx item).getScore pfx item Selection.recentlyUsedByPrefix
      = (st.max : Int) := by
    rw [hadd]
    unfold MruState.getScore
    by_cases hp : Js.len pfx = 0
    · rw [if_pos hp]
      rw [LRUCacheM.get_set_self]
      rfl
    · rw [if_neg hp, if_neg (by decide), if_pos rfl]
      rw [LRUCacheM.get_set_self]
      rfl
  refine ⟨⟨hscore, ?_, ?_⟩, getScore_clear⟩
  · rw [hscore]
    exact_mod_cast Nat.zero_le st.max
  · intro input it sel
    rw [hscore]
    exact getScore_lt_max st input it sel hwf

/-- Claim C3, witnessing instance: a concrete add followed by the prefix
lookup on the cleared state. -/
theorem C3_witness :
    ((MruState.clear.add "f" ⟨"foo", "s", some (KindU.num 1)⟩).getScore "f"
        ⟨"foo", "s", some (KindU.num 1)⟩ Selection.recentlyUsedByPrefix
        = (MruState.clear.max : Int)
      ∧ 0 ≤ (MruState.clear.add "f" ⟨"foo", "s", some (KindU.num 1)⟩).getScore "f"
          ⟨"foo", "s", some (KindU.num 1)⟩ Selection.recentlyUsedByPrefix
      ∧ ∀ input it sel, MruState.clear.getScore input it sel
          < (MruState.clear.add "f" ⟨"foo", "s", some (KindU.num 1)⟩).getScore "f"
              ⟨"foo", "s", some (KindU.num 1)⟩ Selection.recentlyUsedByPrefix)
    ∧ ∀ input it sel, MruState.clear.getScore input it sel = -1 :=
  C3_mru_add_then_getScore MruState.clear "f" ⟨"foo", "s", some (KindU.num 1)⟩
    mruWF_clear 1 rfl (by decide)

/-- Claim C3, counterexample to the unrestricted statement: an item whose
kind is textual is not tracked; `add` is a no-op and the immediate lookup
scores `-1`, which is negative. -/
theorem C3_counterexample :
    (MruState.clear.add "" ⟨"f", "s", some (KindU.str "v")⟩).getScore ""
      ⟨"f", "s", some (KindU.str "v")⟩ Selection.recentlyUsedByPrefix = -1
    ∧ ¬ (0 ≤ (MruState.clear.add "" ⟨"f", "s", some (KindU.str "v")⟩).getScore ""
        ⟨"f", "s", some (KindU.str "v")⟩ Selection.recentlyUsedByPrefix) := by
  constructor
  · rfl
  · decide

/-- `shouldStop` is true exactly under the six stop conditions: empty new
pre-text, trailing space, shrunk pre-text, buffer change, line change, or
lost prefix of the original pre-cursor text. -/
theorem shouldStop_iff (bufnr : Nat) (pretext : String) (info : InsertChange)
    (option : StopOption) :
    shouldStop bufnr pretext info option = true ↔
      (info.pre.data = [] ∨ info.pre.data.getLast? = some ' '
        ∨ Js.len info.pre < Js.len pretext
        ∨ option.bufnr ≠ bufnr
        ∨ option.linenr ≠ info.lnum
        ∨ Js.startsWith info.pre (byteTakeStr option.line (option.colnr - 1)) = false) := by
  simp only [shouldStop, Js.len]
  split
  · rename_i h
    simp only [Bool.or_eq_true, decide_eq_true_eq, beq_iff_eq] at h
    simp only [true_iff]
    rcases h with (h | h) | h
    · exact Or.inl (List.length_eq_zero.mp h)
    · exact Or.inr (Or.inl h)
    · exact Or.inr (Or.inr (Or.inl h))
  · rename_i hA
    simp only [Bool.or_eq_true, decide_eq_true_eq, beq_iff_eq, not_or] at hA
    split
    · rename_i hB
      simp only [bne_iff_ne] at hB
      simp only [true_iff]
      exact Or.inr (Or.inr (Or.inr (Or.inl hB)))
    · rename_i hB
      simp only [bne_iff_ne, ne_eq, not_not] at hB
      split
      · rename_i hC
        simp only [Bool.or_eq_true, bne_iff_ne, Bool.not_eq_true'] at hC
        simp only [true_iff]
        rcases hC with hC | hC
        · exact Or.inr (Or.inr (Or.inr (Or.inr (Or.inl hC))))
        · exact Or.inr (Or.inr (Or.inr (Or.inr (Or.inr hC))))
      · rename_i hC
        simp only [Bool.or_eq_true, bne_iff_ne, Bool.not_eq_true', not_or, ne_eq,
          not_not] at hC
        simp only [Bool.false_eq_true, false_iff, not_or, ne_eq, not_not]
        refine ⟨?_, hA.1.2, hA.2, hB, hC.1, hC.2⟩
        intro hh
        exact hA.1.1 (by simp [hh])

/-- Claim C5: `shouldStop` returns true exactly when the new pre-cursor
text is empty, ends in a space, or is shorter than the recorded pre-cursor
text, or the buffer differs, the line number changed, or the new pre-cursor
text no longer starts with the original pre-cursor text up to the original
column; with the two concrete examples of the spec. -/
theorem C5_shouldStop :
    (∀ (bufnr : Nat) (pretext : String) (info : InsertChange) (option : StopOption),
      shouldStop bufnr pretext info option = true ↔
        (info.pre.data = [] ∨ info.pre.data.getLast? = some ' '
          ∨ Js.len info.pre < Js.len pretext
          ∨ option.bufnr ≠ bufnr
          ∨ option.linenr ≠ info.lnum
          ∨ Js.startsWith info.pre (byteTakeStr option.line (option.colnr - 1)) = false))
    ∧ shouldStop 1 "foo.ba" ⟨1, "foo.bar"⟩ ⟨1, 1, "foo.ba", 7⟩ = false
    ∧ shouldStop 1 "foo.ba" ⟨1, "foo."⟩ ⟨1, 1, "foo.ba", 7⟩ = true :=
  ⟨shouldStop_iff, by decide, by decide⟩

/-- The loop of `getResumeInput` rejects exactly a changed character before
the cursor or a space at or after it. -/
theorem getResumeInput_none_iff (option : PartialOption) (pretext : String) :
    getResumeInput option pretext = none ↔
      Js.len pretext < option.position.character
      ∨ (∃ i < option.position.character, pretext.data[i]? ≠ option.line.data[i]?)
      ∨ (∃ i, option.position.character ≤ i ∧ i < Js.len pretext
          ∧ pretext.data[i]? = some ' ') := by
  simp only [getResumeInput]
  split
  · rename_i h
    simp only [true_iff]
    exact Or.inl h
  · rename_i hlt
    split
    · rename_i hAny
      simp only [true_iff]
      rcases List.any_eq_true.mp hAny with ⟨i, hi, hcond⟩
      replace hi := List.mem_range.mp hi
      by_cases hc : i < option.position.character
      · rw [if_pos hc] at hcond
        exact Or.inr (Or.inl ⟨i, hc, bne_iff_ne.mp hcond⟩)
      · rw [if_neg hc] at hcond
        exact Or.inr (Or.inr ⟨i, Nat.le_of_not_lt hc, hi, beq_iff_eq.mp hcond⟩)
    · rename_i hAny
      have hno : ∀ i, i < Js.len pretext →
          (if i < option.position.character
            then pretext.data[i]? != option.line.data[i]?
            else pretext.data[i]? == some ' ') = false := by
        intro i hi
        cases hcd : (if i < option.position.character
            then pretext.data[i]? != option.line.data[i]?
            else pretext.data[i]? == some ' ') with
        | false => rfl
        | true => exact absurd (List.any_eq_true.mpr ⟨i, List.mem_range.mpr hi, hcd⟩) hAny
      simp only [reduceCtorEq, false_iff]
      rintro (h | ⟨i, hic, hne⟩ | ⟨i, hge, hlen, hsp⟩)
      · exact hlt h
      · have hf := hno i (lt_of_lt_of_le hic (Nat.le_of_not_lt hlt))
        rw [if_pos hic] at hf
        exact hne (bne_eq_false_iff_eq.mp hf)
      · have hf := hno i hlen
        rw [if_neg (Nat.not_lt_of_le hge), hsp] at hf
        simp at hf

/-- When it does not reject, `getResumeInput` returns the byte slice of the
new pre-text from the original input-start column. -/
theorem getResumeInput_some (option : PartialOption) (pretext : String) :
    getResumeInput option pretext = none
    ∨ getResumeInput option pretext = some (byteSlice pretext option.col) := by
  simp only [getResumeInput]
  split
  · exact Or.inl rfl
  · split
    · exact Or.inl rfl
    · exact Or.inr rfl

/-- Claim C6: `getResumeInput` returns null exactly when the new pre-text
is shorter than the cursor, a pre-cursor character changed, or a space
occurs at or after the cursor; otherwise it returns the byte slice from the
input-start column; with the spec's two concrete examples. -/
theorem C6_getResumeInput :
    (∀ (option : PartialOption) (pretext : String),
      getResumeInput option pretext = none ↔
        Js.len pretext < option.position.character
        ∨ (∃ i < option.position.character, pretext.data[i]? ≠ option.line.data[i]?)
        ∨ (∃ i, option.position.character ≤ i ∧ i < Js.len pretext
            ∧ pretext.data[i]? = some ' '))
    ∧ (∀ (option : PartialOption) (pretext : String),
        getResumeInput option pretext = none
        ∨ getResumeInput option pretext = some (byteSlice pretext option.col))
    ∧ getResumeInput ⟨4, "foo.bar", ⟨0, 7⟩⟩ "foo.bar" = some "bar"
    ∧ getResumeInput ⟨4, "foo.bar", ⟨0, 7⟩⟩ "foo.ba" = none :=
  ⟨getResumeInput_none_iff, getResumeInput_some, by decide, by decide⟩

/-- Claim C1 (amended): for a protocol-native item with no own edit, no
opaque `data.word`, and a string insert text: a non-snippet item's word is
the insert text truncated at the first line feed or carriage return (hence
a prefix of it); a snippet item's text is first stripped of a parameter
list for Method/Function kinds, and then: if it contains no dollar sign it
is returned whole (without line-feed truncation), otherwise it is run
through snippet parsing and the parse result is truncated at the first
disallowed character.  The snippet parser is universally quantified, per
the spec's treatment of it as opaque. -/
theorem C1_word_derivation (parse : String → String) (item : CompletionItem)
    (itemDefaults : ItemDefaults) (s : String)
    (hdw : dataWord item = none) (hte : item.textEdit = none)
    (hit : item.insertText = some s) :
    (isSnippetItem item itemDefaults = false →
      (getWord parse item itemDefaults).data
          = s.data.takeWhile (fun c => !INVALID_WORD_CHARS.contains c)
      ∧ (getWord parse item itemDefaults).data <+: s.data)
    ∧ (isSnippetItem item itemDefaults = true →
        (Js.containsCh (if item.kind = some kindFunction ∨ item.kind = some kindMethod
            then replaceParenSuffix s else s) '$' = false →
          getWord parse item itemDefaults
            = (if item.kind = some kindFunction ∨ item.kind = some kindMethod
               then replaceParenSuffix s else s))
        ∧ (Js.containsCh (if item.kind = some kindFunction ∨ item.kind = some kindMethod
              then replaceParenSuffix s else s) '$' = true →
            (getWord parse item itemDefaults).data
              = (parse (if item.kind = some kindFunction ∨ item.kind = some kindMethod
                  then replaceParenSuffix s else s)).data.takeWhile
                  (fun c => !INVALID_WORD_CHARS.contains c))) := by
  have hgw : getWord parse item itemDefaults
      = (if isSnippetItem item itemDefaults then snippetToWord parse s item.kind
         else toValidWord s INVALID_WORD_CHARS) := by
    simp [getWord, hdw, hte, hit]
  constructor
  · intro hsnip
    rw [hgw, if_neg (by simp [hsnip])]
    constructor
    · exact toValidWordList_eq_takeWhile INVALID_WORD_CHARS s.data
    · rw [show (toValidWord s INVALID_WORD_CHARS).data
          = s.data.takeWhile (fun c => !INVALID_WORD_CHARS.contains c) from
          toValidWordList_eq_takeWhile INVALID_WORD_CHARS s.data]
      exact List.takeWhile_prefix _
  · intro hsnip
    rw [hgw, if_pos hsnip]
    simp only [snippetToWord, Bool.or_eq_true, beq_iff_eq]
    constructor
    · intro hdollar
      rw [if_pos (by simp [hdollar])]
    · intro hdollar
      rw [if_neg (by simp [hdollar])]
      exact toValidWordList_eq_takeWhile INVALID_WORD_CHARS _

/-- Claim C1, witnessing instance: a Function-kind snippet `foo($1)` parses
(with the identity parser on its stripped body) to the word `foo`. -/
theorem C1_witness :
    getWord id
      { label := "x", kind := some kindFunction,
        insertTextFormat := some snippetFormat, insertText := some "foo($1)" } {} = "foo" := by
  have h := ((C1_word_derivation id
      { label := "x", kind := some kindFunction,
        insertTextFormat := some snippetFormat, insertText := some "foo($1)" }
      {} "foo($1)" rfl rfl rfl).2 rfl).1 (by decide)
  exact h.trans (by decide)

/-- Claim C1, counterexample to the unamended statement: a snippet whose
insert text contains a line feed but no dollar sign is returned whole, not
truncated at the line feed. -/
theorem C1_counterexample :
    getWord id
      { label := "x", insertTextFormat := some snippetFormat,
        insertText := some "a\nb" } {} = "a\nb"
    ∧ toValidWord "a\nb" INVALID_WORD_CHARS = "a"
    ∧ getWord id
        { label := "x", insertTextFormat := some snippetFormat,
          insertText := some "a\nb" } {} ≠ toValidWord "a\nb" INVALID_WORD_CHARS := by
  exact ⟨by decide, by decide, by decide⟩

/-- Clamping never leaves the start character above the bound. -/
theorem clampRange_start_le (c : Nat) (r : Range) :
    (clampRange c r).start.character ≤ c ∨ (clampRange c r).start.character = r.start.character := by
  unfold clampRange
  split
  · exact Or.inl (Nat.le_refl c)
  · exact Or.inr rfl

/-- The clamped start is the minimum of the bound and the original start. -/
theorem clampRange_start (c : Nat) (r : Range) :
    (clampRange c r).start.character = min c r.start.character := by
  unfold clampRange
  split
  · rename_i h
    exact (Nat.min_eq_left (Nat.le_of_lt h)).symm
  · rename_i h
    exact (Nat.min_eq_right (Nat.le_of_not_lt h)).symm

/-- Claim C2 (amended): `getReplaceRange` selects the item's own edit range
first (replace variant of an insert-or-replace edit preferred), else the
defaults' edit range (again preferring the replace variant), else nothing;
every range it returns is clamped so its start character never exceeds the
supplied bound; the converter falls back to the batch default range, which
is used unclamped, when `getReplaceRange` returns nothing. -/
theorem C2_replace_range (item : CompletionItem) (itemDefaults : ItemDefaults) (c : Nat) :
    (∀ r, getReplaceRange item itemDefaults (some c) = some r → r.start.character ≤ c)
    ∧ (∀ ir rp txt, item.textEdit = some (TextEditU.insertReplace ir rp txt) →
        getReplaceRange item itemDefaults (some c) = some (clampRange c rp))
    ∧ (∀ rr txt, item.textEdit = some (TextEditU.simple rr txt) →
        getReplaceRange item itemDefaults (some c) = some (clampRange c rr))
    ∧ (item.textEdit = none → ∀ rr, itemDefaults.editRange = some (EditRangeU.range rr) →
        getReplaceRange item itemDefaults (some c) = some (clampRange c rr))
    ∧ (item.textEdit = none →
        ∀ ir rp, itemDefaults.editRange = some (EditRangeU.insertReplace ir rp) →
        getReplaceRange item itemDefaults (some c) = some (clampRange c rp))
    ∧ (item.textEdit = none → itemDefaults.editRange = none →
        getReplaceRange item itemDefaults (some c) = none)
    ∧ (∀ (ctx : ConvertContext) (st index : Nat),
        ctx.option.itemDefaults.getD {} = itemDefaults →
        (convertLspCompleteItem ctx st item index).1.character
          = ((getReplaceRange item itemDefaults (some ctx.inputStart)).getD
              ctx.option.range).start.character) := by
  refine ⟨?_, ?_, ?_, ?_, ?_, ?_, ?_⟩
  · intro r hr
    unfold getReplaceRange at hr
    cases hcr : chooseRange item itemDefaults with
    | none => rw [hcr] at hr; cases hr
    | some r0 =>
      rw [hcr] at hr
      cases hr
      rw [clampRange_start]
      exact Nat.min_le_left c r0.start.character
  · intro ir rp txt hte
    unfold getReplaceRange chooseRange
    rw [hte]
  · intro rr txt hte
    unfold getReplaceRange chooseRange
    rw [hte]
  · intro hte rr her
    unfold getReplaceRange chooseRange
    rw [hte, her]
  · intro hte ir rp her
    unfold getReplaceRange chooseRange
    rw [hte, her]
  · intro hte her
    unfold getReplaceRange chooseRange
    rw [hte, her]
  · intro ctx st index hdef
    rw [convertLsp_character, hdef]

/-- Claim C2, witnessing instance: an own simple edit starting at 5 clamped
by the bound 3. -/
theorem C2_witness :
    (clampRange 3
      { start := { line := 0, character := 5 },
        endPos := { line := 0, character := 6 } }).start.character ≤ 3 :=
  (C2_replace_range
    { label := "x",
      textEdit := some (TextEditU.simple
        { start := { line := 0, character := 5 },
          endPos := { line := 0, character := 6 } } "w") } {} 3).1 _ rfl

/-- Claim C2, counterexample to the unamended conclusion: an item with no
edit of its own and no defaults falls back to the batch default range,
which is not clamped, so the produced start character 5 exceeds the
`inputStart` bound 3. -/
theorem C2_counterexample :
    (convertLspCompleteItem
      ⟨3, { source := "s", priority := 1,
            range := { start := { line := 0, character := 5 },
                       endPos := { line := 0, character := 5 } } },
        ⟨"foobar", { line := 0, character := 6 }⟩, id, id⟩
      maxSafeInteger { label := "x" } 0).1.character = 5
    ∧ ¬ ((convertLspCompleteItem
      ⟨3, { source := "s", priority := 1,
            range := { start := { line := 0, character := 5 },
                       endPos := { line := 0, character := 5 } } },
        ⟨"foobar", { line := 0, character := 6 }⟩, id, id⟩
      maxSafeInteger { label := "x" } 0).1.character ≤ 3) := by
  exact ⟨rfl, by decide⟩

/-- The threaded `minCharacter` of a conversion sequence is the `min`-fold
of the produced characters over the initial value. -/
theorem convertAll_snd_eq (ctx : ConvertContext) :
    ∀ (raws : List RawCompleteItem) (st i : Nat),
    (convertAll ctx st raws i).2
      = ((convertAll ctx st raws i).1.map (fun d => d.character)).foldl min st := by
  intro raws
  induction raws with
  | nil => intro st i; rfl
  | cons raw rest ih =>
    intro st i
    simp only [convertAll]
    rw [List.map_cons, List.foldl_cons, ih, convert_snd_min]

/-- Claim C7: over any sequence of conversions on one converter, the final
`minCharacter` equals the minimum of the produced items' replace-range
start characters (starting from `Number.MAX_SAFE_INTEGER`), so no produced
item's start character precedes it. -/
theorem C7_minCharacter (ctx : ConvertContext) (raws : List RawCompleteItem) (i : Nat) :
    (convertAll ctx maxSafeInteger raws i).2
      = ((convertAll ctx maxSafeInteger raws i).1.map (fun d => d.character)).foldl
          min maxSafeInteger
    ∧ ((convertAll ctx maxSafeInteger raws i).1.map (fun d => d.character)).all
        (fun ch => decide ((convertAll ctx maxSafeInteger raws i).2 ≤ ch)) = true := by
  refine ⟨convertAll_snd_eq ctx raws maxSafeInteger i, ?_⟩
  rw [List.all_eq_true]
  intro ch hch
  rw [decide_eq_true_eq, convertAll_snd_eq ctx raws maxSafeInteger i]
  exact foldl_min_le_mem _ _ _ hch

/-- When the cursor is at or past the input start and the replace range
ends inside the line, `fixFollow` never empties a nonempty word. -/
theorem fixFollow_ne_empty (ctx : ConvertContext) (word : String) (isSnippet : Bool)
    (endCharacter : Nat) (hil : 0 ≤ ctx.inputLen)
    (hline : endCharacter ≤ Js.len ctx.opt.line) (hw : word ≠ "") :
    ctx.fixFollow word isSnippet endCharacter ≠ "" := by
  simp only [ConvertContext.fixFollow]
  split
  · exact hw
  · rename_i hc1
    split
    · rename_i hc2
      have hch : ctx.character < endCharacter := by
        simp only [Bool.or_eq_true, decide_eq_true_eq, not_or] at hc1
        exact Nat.lt_of_not_le hc1.2
      have hlenrep : Js.len (ctx.getAfter endCharacter) = endCharacter - ctx.character := by
        unfold ConvertContext.getAfter Js.sliceCE Js.len at *
        simp only [String.data, List.length_drop, List.length_take]
        omega
      rw [Bool.and_eq_true, decide_eq_true_eq] at hc2
      obtain ⟨hgt, -⟩ := hc2
      have hn : Js.len (ctx.getAfter endCharacter) ≠ 0 := by omega
      have hlt : Js.len (ctx.getAfter endCharacter) < Js.len word := by omega
      unfold jsSliceNegEnd
      rw [if_neg hn]
      unfold Js.takeCh
      intro hcontra
      have hdata : word.data.take (Js.len word - Js.len (ctx.getAfter endCharacter)) = [] := by
        have := congrArg String.data hcontra
        simpa using this
      rcases List.take_eq_nil_iff.mp hdata with h0 | h0
      · unfold Js.len at hlt h0
        omega
      · exact hw (String.ext (by rw [h0]))
    · exact hw

/-- Claim C8 (amended): for a protocol-native item with no opaque
`data.word`, no text edit and no insert text, the produced word is the
item's raw (untrimmed) label run through follow-character trimming; when
the cursor is at or past the input start and the replace range ends inside
the line, the word is empty only if the label itself is empty.  (The
trimmed label is used for the display `abbr`, not for the word.) -/
theorem C8_label_fallback (ctx : ConvertContext) (st : Nat) (item : CompletionItem)
    (index : Nat) (hdw : dataWord item = none) (hte : item.textEdit = none)
    (hit : item.insertText = none) (hil : ctx.inputStart ≤ ctx.character)
    (hline : ((getReplaceRange item (ctx.option.itemDefaults.getD {}) (some ctx.inputStart)).getD
        ctx.option.range).endPos.character ≤ Js.len ctx.opt.line) :
    (convertLspCompleteItem ctx st item index).1.word
      = ctx.fixFollow item.label (isSnippetItem item (ctx.option.itemDefaults.getD {}))
          (((getReplaceRange item (ctx.option.itemDefaults.getD {}) (some ctx.inputStart)).getD
              ctx.option.range).endPos.character)
    ∧ (item.label ≠ "" → (convertLspCompleteItem ctx st item index).1.word ≠ "") := by
  have hgw : getWord ctx.parseSnippetText item (ctx.option.itemDefaults.getD {})
      = item.label := by
    simp [getWord, hdw, hte, hit]
  constructor
  · rw [convertLsp_word, hgw]
  · intro hlab
    rw [convertLsp_word, hgw]
    refine fixFollow_ne_empty ctx item.label _ _ ?_ hline hlab
    unfold ConvertContext.inputLen
    omega

/-- Claim C8, witnessing instance: a concrete batch where the label-only
item keeps a nonempty word. -/
theorem C8_witness :
    (convertLspCompleteItem
      ⟨3, { source := "s", priority := 1,
            range := { start := { line := 0, character := 3 },
                       endPos := { line := 0, character := 3 } } },
        ⟨"foo", { line := 0, character := 3 }⟩, id, id⟩
      maxSafeInteger { label := " foo " } 0).1.word ≠ "" :=
  (C8_label_fallback
    ⟨3, { source := "s", priority := 1,
          range := { start := { line := 0, character := 3 },
                     endPos := { line := 0, character := 3 } } },
      ⟨"foo", { line := 0, character := 3 }⟩, id, id⟩
    maxSafeInteger { label := " foo " } 0 rfl rfl rfl (by decide) (by decide)).2 (by decide)

/-- Claim C8, counterexample to the unamended statement: a label with
surrounding whitespace is used verbatim as the word; it is not trimmed. -/
theorem C8_counterexample :
    (convertLspCompleteItem
      ⟨3, { source := "s", priority := 1,
            range := { start := { line := 0, character := 3 },
                       endPos := { line := 0, character := 3 } } },
        ⟨"foo", { line := 0, character := 3 }⟩, id, id⟩
      maxSafeInteger { label := " foo " } 0).1.word = " foo "
    ∧ Js.trim " foo " = "foo"
    ∧ (convertLspCompleteItem
      ⟨3, { source := "s", priority := 1,
            range := { start := { line := 0, character := 3 },
                       endPos := { line := 0, character := 3 } } },
        ⟨"foo", { line := 0, character := 3 }⟩, id, id⟩
      maxSafeInteger { label := " foo " } 0).1.word ≠ Js.trim " foo " := by
  exact ⟨rfl, by decide, by decide⟩

/-- Claim C9 (amended): the returned canonical item is a pure function of
the converter's fixed construction context, the raw item and the index; in
particular it does not depend on the mutable `minCharacter`, and repeating
a call yields an equal item. -/
theorem C9_result_pure (ctx : ConvertContext) (raw : RawCompleteItem)
    (index st st' : Nat) :
    (convertToDurationItem ctx st raw index).1
      = (convertToDurationItem ctx st' raw index).1 := by
  cases raw <;> rfl

/-- Claim C9, counterexample to the frame part: a conversion updates the
observable `minCharacter` state, and the clamp of `getReplaceRange`
mutates the raw item's stored text edit in place. -/
theorem C9_counterexample :
    ((convertLspCompleteItem
      ⟨1, { source := "s", priority := 1,
            range := { start := { line := 0, character := 1 },
                       endPos := { line := 0, character := 1 } } },
        ⟨"ab", { line := 0, character := 2 }⟩, id, id⟩
      maxSafeInteger
      { label := "x",
        textEdit := some (TextEditU.simple
          { start := { line := 0, character := 5 },
            endPos := { line := 0, character := 6 } } "w") } 0).2 = 1
      ∧ maxSafeInteger ≠ 1)
    ∧ textEditAfterClamp
        { label := "x",
          textEdit := some (TextEditU.simple
            { start := { line := 0, character := 5 },
              endPos := { line := 0, character := 6 } } "w") } 1
      ≠ ({ label := "x",
           textEdit := some (TextEditU.simple
             { start := { line := 0, character := 5 },
               endPos := { line := 0, character := 6 } } "w") } : CompletionItem).textEdit := by
  exact ⟨⟨rfl, by decide⟩, by decide⟩

/-- Claim C10: a protocol-native item's dedup flag is true except when its
opaque data carries `dup = 0`; an item with no data at all gets `dup =
true`, while a legacy-simple item with no `dup` field gets `dup = false`. -/
theorem C10_dup_default (ctx : ConvertContext) (st : Nat) (item : CompletionItem)
    (vitem : ExtendedCompleteItem) (index : Nat) :
    ((convertLspCompleteItem ctx st item index).1.dup = false
      ↔ (item.data.getD {}).dup = some 0)
    ∧ (convertLspCompleteItem ctx st { item with data := none } index).1.dup = true
    ∧ (convertVimCompleteItem ctx st { vitem with dup := none } index).1.dup = false := by
  refine ⟨?_, ?_, ?_⟩
  · rw [convertLsp_dup]
    exact bne_eq_false_iff_eq
  · rw [convertLsp_dup]
    rfl
  · rfl

end CocComplete
